import Mathlib

/-!
Verification development for the `unranked-pp` score-aggregation tool
(`src/main.rs`).  The pipeline is embedded shallowly:

* `f64` values (performance values, star ratings, the weighting constants)
  are modelled as rationals `ℚ`; all constants of the source
  (`0.95`, `0.995`, `2000.0`, `417.0 - 1.0/3.0`, …) are exactly
  representable in `ℚ` and all arithmetic the program performs on them is
  `+`, `*`, `powi/powf` with a natural exponent, and comparisons, which
  `ℚ` models faithfully (no NaN can arise from the modelled inputs).
* The external collaborators (osu_db decoding, rosu_pp evaluation, the
  file system) are oracles: `Env` carries the beatmap-content reader and
  the performance evaluator as functions, a `World` carries the two
  database load results.
* `HashMap<String, ScoreData>` of `remove_duplicates` is modelled as an
  association list with the exact `entry().and_modify(..).or_insert(..)`
  update; its undefined iteration order is modelled by quantifying over
  permutations of the value list where that matters.
* `slice::sort_by` (a stable sort) with the comparator
  `b.pp.partial_cmp(&a.pp).unwrap_or(Equal)` is modelled by a stable
  insertion sort descending on the performance value; on NaN-free data the
  comparator is a total preorder and the stable-sorted result is unique,
  so this is the sort the program performs.
-/

/-- `osu_db::listing::RankedStatus`. -/
inductive RankedStatus where
  | Unknown
  | Unsubmitted
  | PendingWipGraveyard
  | Ranked
  | Approved
  | Qualified
  | Loved
deriving DecidableEq, Repr

/-- `osu_db::Replay` — the fields `src/main.rs` reads.  The modifier
bitset `mods` (`score.mods.0 : u32`) is a natural number below `2^32`. -/
structure Replay where
  beatmap_hash : Option String
  count_300 : Nat
  count_100 : Nat
  count_50 : Nat
  count_miss : Nat
  max_combo : Nat
  mods : Nat
  perfect_combo : Bool
deriving DecidableEq, Repr

/-- `osu_db::listing::Beatmap` — the fields `src/main.rs` reads. -/
structure ListingBeatmap where
  hash : Option String
  status : RankedStatus
  folder_name : Option String
  file_name : Option String
  artist_ascii : Option String
  title_ascii : Option String
  difficulty_name : Option String
deriving DecidableEq, Repr

/-- `rosu_pp::PerformanceAttributes`, abstracted to the two observables the
program uses: `attributes.pp()` and `attributes.stars()`. -/
structure PerformanceAttributes where
  pp : ℚ
  stars : ℚ
deriving DecidableEq, Repr

/-- `struct ScoreData` of `src/main.rs`. -/
structure ScoreData where
  score : Replay
  map : ListingBeatmap
  attributes : PerformanceAttributes
deriving DecidableEq, Repr

/-- One group of `score_list.beatmaps`: the scores recorded for one
beatmap hash in `scores.db`. -/
structure BeatmapScores where
  scores : List Replay
deriving DecidableEq, Repr

/-- `osu_db::score::ScoreList`. -/
structure ScoreList where
  beatmaps : List BeatmapScores
deriving DecidableEq, Repr

/-- `osu_db::listing::Listing`. -/
structure Listing where
  beatmaps : List ListingBeatmap
deriving DecidableEq, Repr

/-- The external collaborators of the Matcher, as oracles: `readMap` is
`Beatmap::from_path` (keyed by the path string built from the listing
entry), `calc` is the rosu_pp evaluation
`map.pp().mods(..).combo(..).n_misses(..).n300(..).n100(..).n50(..).calculate()`
with the arguments in that order. -/
structure Env (M : Type) where
  readMap : String → Except String M
  calcAttrs : M → Nat → Nat → Nat → Nat → Nat → Nat → PerformanceAttributes

/-- The `Songs/<folder>/<file>` path built at lines 68–70 of
`src/main.rs`, with the `unwrap_or` defaults. -/
def songPath (beatmap : ListingBeatmap) : String :=
  "Songs/" ++ beatmap.folder_name.getD "Unknown Folder" ++ "/"
    ++ beatmap.file_name.getD "Unknown File"

/-- The per-record tail of the `process_scores` loop body after the
eligibility filter (lines 68–97 of `src/main.rs`): resolve and read the
content file, evaluate, apply the outlier guard, emit.  Returns the
`eprintln!` error log lines and the optional emitted entry. -/
def evalRecord {M : Type} (env : Env M) (beatmap : ListingBeatmap)
    (score : Replay) : List String × Option ScoreData :=
  match env.readMap (songPath beatmap) with
  | Except.error e => (["Error: " ++ e], none)
  | Except.ok m =>
    let attributes := env.calcAttrs m score.mods score.max_combo
      score.count_miss score.count_300 score.count_100 score.count_50
    if attributes.pp ≥ 2000 then ([], none)
    else ([], some ⟨score, beatmap, attributes⟩)

/-- The whole `process_scores` loop body for one score record
(lines 55–97 of `src/main.rs`): beatmap lookup, eligibility filter, then
`evalRecord`. -/
def processScore {M : Type} (env : Env M) (listing : List ListingBeatmap)
    (score : Replay) : List String × Option ScoreData :=
  match listing.find? (fun b => b.hash == score.beatmap_hash) with
  | none => (["Error: Beatmap not found"], none)
  | some beatmap =>
    if beatmap.status = RankedStatus.Ranked then ([], none)
    else evalRecord env beatmap score

/-- The entries `process_scores` pushes for one group of scores. -/
def processGroup {M : Type} (env : Env M) (listing : List ListingBeatmap)
    (scores : List Replay) : List ScoreData :=
  scores.filterMap (fun s => (processScore env listing s).2)

/-- `fn process_scores` (lines 46–102 of `src/main.rs`): the list of
`ScoreData` pushed onto `scores_with_pp`, in push order. -/
def process_scores {M : Type} (env : Env M) (score_list : ScoreList)
    (listing : Listing) : List ScoreData :=
  score_list.beatmaps.flatMap
    (fun g => processGroup env listing.beatmaps g.scores)

/-- The `eprintln!` lines `process_scores` emits for one score record. -/
def processScoreLog {M : Type} (env : Env M) (listing : List ListingBeatmap)
    (score : Replay) : List String :=
  (processScore env listing score).1

/-- The deduplication key of an entry: `score.beatmap_hash.clone()
.unwrap_or_else(|| "unknown".to_string())` (lines 107–111). -/
def dedupKey (sd : ScoreData) : String :=
  sd.score.beatmap_hash.getD "unknown"

/-- One `scores_by_hash.entry(hash).and_modify(..).or_insert(..)` step
(lines 112–119 of `src/main.rs`) on the map, modelled as an association
list: if the key is present, replace the stored entry only when the new
performance value is strictly greater; otherwise insert. -/
def updateEntry (m : List (String × ScoreData)) (hash : String)
    (sd : ScoreData) : List (String × ScoreData) :=
  match m with
  | [] => [(hash, sd)]
  | (k, e) :: rest =>
    if k = hash then
      (k, if sd.attributes.pp > e.attributes.pp then sd else e) :: rest
    else (k, e) :: updateEntry rest hash sd

/-- `fn remove_duplicates` (lines 104–123 of `src/main.rs`) up to its
final `into_values()`: the `scores_by_hash` map after the fold over the
input, as an association list in key-first-insertion order. -/
def remove_duplicates (scores_with_pp : List ScoreData) :
    List (String × ScoreData) :=
  scores_with_pp.foldl (fun m sd => updateEntry m (dedupKey sd) sd) []

/-- The value collection `scores_by_hash.into_values().collect()`
(line 122).  A `HashMap`'s iteration order is unspecified, so downstream
facts quantify over permutations of this list. -/
def dedupValues (scores_with_pp : List ScoreData) : List ScoreData :=
  (remove_duplicates scores_with_pp).map Prod.snd

/-- Stable insertion (descending on `attributes.pp`): the element being
inserted precedes every stored element whose value is ≤ its own; combined
with `sortScores` this is the unique stable descending sort, i.e. the
result of `unique_scores.sort_by(|a, b|
b.attributes.pp().partial_cmp(&a.attributes.pp())
.unwrap_or(Ordering::Equal))` at line 165 of `src/main.rs`. -/
def insertScore (a : ScoreData) : List ScoreData → List ScoreData
  | [] => [a]
  | b :: l =>
    if b.attributes.pp ≤ a.attributes.pp then a :: b :: l
    else b :: insertScore a l

/-- The sorted `unique_scores` slice (descending by performance value,
stable). -/
def sortScores (l : List ScoreData) : List ScoreData :=
  l.foldr insertScore []

/-- `total_pp` (lines 174–178 of `src/main.rs`): Σ over the 0-based index
`i` of the sorted slice of `pp(i) * 0.95^i`. -/
def total_pp (l : List ScoreData) : ℚ :=
  (l.enum.map (fun p => p.2.attributes.pp * (0.95 : ℚ) ^ p.1)).sum

/-- `bonus_pp` (line 182 of `src/main.rs`):
`(417.0 - 1.0/3.0) * (1.0 - 0.995f64.powf(min(1000, n) as f64))`. -/
def bonus_pp (n : Nat) : ℚ :=
  (417 - 1 / 3) * (1 - (0.995 : ℚ) ^ (min 1000 n))

/-- The `9* PFCs` filter predicate (line 187 of `src/main.rs`):
`score.attributes.stars() >= 9.0 && score.attributes.stars() < 10.0 &&
score.score.perfect_combo`. -/
def isNinePFC (sd : ScoreData) : Bool :=
  decide (sd.attributes.stars ≥ 9) && decide (sd.attributes.stars < 10)
    && sd.score.perfect_combo

/-- The `9* PFCs` count (lines 186–188 of `src/main.rs`). -/
def count9PFC (l : List ScoreData) : Nat :=
  (l.filter isNinePFC).length

/-- The 31 modifier flags declared in the `bitflags!` block of
`src/main.rs` (lines 126–162): bit positions 0–30 with their names, in
declaration order.  `NoMod = 0` is the empty set, not a bit. -/
def modFlags : List (Nat × String) :=
  [(0, "NoFail"), (1, "Easy"), (2, "TouchDevice"), (3, "Hidden"),
   (4, "HardRock"), (5, "SuddenDeath"), (6, "DoubleTime"), (7, "Relax"),
   (8, "HalfTime"), (9, "Nightcore"), (10, "Flashlight"), (11, "Autoplay"),
   (12, "SpunOut"), (13, "Relax2"), (14, "Perfect"), (15, "Key4"),
   (16, "Key5"), (17, "Key6"), (18, "Key7"), (19, "Key8"), (20, "FadeIn"),
   (21, "Random"), (22, "Cinema"), (23, "Target"), (24, "Key9"),
   (25, "KeyCoop"), (26, "Key1"), (27, "Key3"), (28, "Key2"),
   (29, "ScoreV2"), (30, "Mirror")]

/-- The union of all defined modifier bits: bits 0–30, i.e. `2^31 - 1`. -/
def definedModsMask : Nat := 2 ^ 31 - 1

/-- `Mods::from_bits` (bitflags): `some` exactly when every set bit is a
defined flag, `none` otherwise. -/
def modsFromBits (m : Nat) : Option Nat :=
  if m &&& definedModsMask = m then some m else none

/-- The `{:?}` rendering of a defined modifier set, abstracted to the
names of the contained flags in declaration order. -/
def formatMods (m : Nat) : String :=
  String.intercalate " | "
    ((modFlags.filter (fun p => m &&& 2 ^ p.1 != 0)).map Prod.snd)

/-- Lines 199–204 of `src/main.rs`:
`Mods::from_bits(mods).unwrap_or(Mods::NoMod)`, then `"NoMod"` when the
resulting set is empty, the debug rendering otherwise. -/
def mod_display (m : Nat) : String :=
  let mods := (modsFromBits m).getD 0
  if mods = 0 then "NoMod" else formatMods mods

/-- The report content of `export_tops`: the four scalar lines plus the
top slice written to the file. -/
structure RankedReport where
  grand_total : ℚ
  weighted_total : ℚ
  bonus : ℚ
  ninePFC : Nat
  top : List ScoreData
deriving DecidableEq, Repr

/-- `fn export_tops` (lines 164–225 of `src/main.rs`) as the report it
writes: sort in place (stable, descending by performance value), then the
weighted total, the bonus, the 9*-PFC count over the sorted slice, and
`take(100)` of it. -/
def export_tops (unique_scores : List ScoreData) : RankedReport :=
  let sorted := sortScores unique_scores
  let tp := total_pp sorted
  let bp := bonus_pp sorted.length
  { grand_total := tp + bp
    weighted_total := tp
    bonus := bp
    ninePFC := count9PFC sorted
    top := sorted.take 100 }

/-- The run's inputs: the two database load results (fatal on error),
the per-record oracles, and the file system's response to creating and
writing the report file (`File::create` at line 169 and the `writeln!`
calls of `export_tops`, whose `io::Error` is `?`-propagated out of
`export_tops` and out of `main`). -/
structure World (M : Type) where
  scoresDB : Except String ScoreList
  osuDB : Except String Listing
  env : Env M
  writeReport : RankedReport → Except String Unit

/-- `fn main` (lines 19–44 of `src/main.rs`): load `scores.db`, load
`osu!.db` (each `?`-propagated as the run's error result), then
process → deduplicate → export, where `export_tops` itself
`?`-propagates any failure of creating or writing the report file. -/
def runMain {M : Type} (w : World M) : Except String RankedReport :=
  match w.scoresDB with
  | Except.error e => Except.error e
  | Except.ok score_list =>
    match w.osuDB with
    | Except.error e => Except.error e
    | Except.ok listing =>
      let report := export_tops (dedupValues
        (process_scores w.env score_list listing))
      match w.writeReport report with
      | Except.error e => Except.error e
      | Except.ok _ => Except.ok report

/-! ### Deduplicator lemmas -/

theorem keys_updateEntry (m : List (String × ScoreData)) (key : String)
    (sd : ScoreData) :
    (updateEntry m key sd).map Prod.fst =
      if key ∈ m.map Prod.fst then m.map Prod.fst
      else m.map Prod.fst ++ [key] := by
  induction m with
  | nil => simp [updateEntry]
  | cons q rest ih =>
    obtain ⟨k, e⟩ := q
    by_cases hk : k = key
    · subst hk
      simp [updateEntry]
    · by_cases hmem : key ∈ rest.map Prod.fst
      · simp [updateEntry, hk, ih, hmem, Ne.symm hk]
      · simp [updateEntry, hk, ih, hmem, Ne.symm hk]

theorem nodup_keys_updateEntry {m : List (String × ScoreData)} {key : String}
    {sd : ScoreData} (hnd : (m.map Prod.fst).Nodup) :
    ((updateEntry m key sd).map Prod.fst).Nodup := by
  rw [keys_updateEntry]
  by_cases hmem : key ∈ m.map Prod.fst
  · simpa [hmem] using hnd
  · simp [hmem, List.nodup_append, hnd]

theorem mem_updateEntry_ne {m : List (String × ScoreData)} {key : String}
    {sd : ScoreData} {p : String × ScoreData}
    (hp : p ∈ updateEntry m key sd) (hne : p.1 ≠ key) : p ∈ m := by
  induction m with
  | nil =>
    simp [updateEntry] at hp
    simp [hp] at hne
  | cons q rest ih =>
    obtain ⟨k, e⟩ := q
    by_cases hk : k = key
    · subst hk
      simp [updateEntry] at hp
      rcases hp with hp | hp
      · simp [hp] at hne
      · exact List.mem_cons_of_mem _ hp
    · simp [updateEntry, hk] at hp
      rcases hp with hp | hp
      · simp [hp]
      · exact List.mem_cons_of_mem _ (ih hp)

theorem mem_updateEntry_eq {m : List (String × ScoreData)} {key : String}
    {sd : ScoreData} (hnd : (m.map Prod.fst).Nodup) {p : String × ScoreData}
    (hp : p ∈ updateEntry m key sd) (hpk : p.1 = key) :
    sd.attributes.pp ≤ p.2.attributes.pp ∧
    (p.2 = sd ∨ (key, p.2) ∈ m) ∧
    ∀ e, (key, e) ∈ m → e.attributes.pp ≤ p.2.attributes.pp := by
  induction m with
  | nil =>
    simp [updateEntry] at hp
    simp [hp]
  | cons q rest ih =>
    obtain ⟨k, e⟩ := q
    simp only [List.map_cons, List.nodup_cons] at hnd
    by_cases hk : k = key
    · subst hk
      simp only [updateEntry, if_pos rfl] at hp
      cases hp with
      | head =>
        by_cases hgt : sd.attributes.pp > e.attributes.pp
        · simp only [if_pos hgt]
          refine ⟨le_refl _, by simp, fun e' he' => ?_⟩
          rcases List.mem_cons.mp he' with he' | he'
          · have h2 : e' = e := congrArg Prod.snd he'
            rw [h2]
            exact le_of_lt hgt
          · have h3 := List.mem_map_of_mem Prod.fst he'
            exact absurd h3 hnd.1
        · simp only [if_neg hgt]
          refine ⟨le_of_not_lt hgt, by simp, fun e' he' => ?_⟩
          rcases List.mem_cons.mp he' with he' | he'
          · have h2 : e' = e := congrArg Prod.snd he'
            rw [h2]
          · have h3 := List.mem_map_of_mem Prod.fst he'
            exact absurd h3 hnd.1
      | tail _ hp =>
        have h3 := List.mem_map_of_mem Prod.fst hp
        rw [hpk] at h3
        exact absurd h3 hnd.1
    · simp only [updateEntry, if_neg hk] at hp
      cases hp with
      | head => exact absurd hpk hk
      | tail _ hp =>
        obtain ⟨h1, h2, h3⟩ := ih hnd.2 hp
        refine ⟨h1, ?_, ?_⟩
        · rcases h2 with h2 | h2
          · exact Or.inl h2
          · exact Or.inr (List.mem_cons_of_mem _ h2)
        · intro e' he'
          rcases List.mem_cons.mp he' with he' | he'
          · exact absurd (congrArg Prod.fst he').symm hk
          · exact h3 e' he'

theorem remove_duplicates_aux :
    ∀ (l done : List ScoreData) (m : List (String × ScoreData)),
      (m.map Prod.fst).Nodup →
      (∀ sd ∈ done, dedupKey sd ∈ m.map Prod.fst) →
      (∀ p ∈ m, p.2 ∈ done ∧ dedupKey p.2 = p.1 ∧
        ∀ sd ∈ done, dedupKey sd = p.1 →
          sd.attributes.pp ≤ p.2.attributes.pp) →
      ((l.foldl (fun acc sd => updateEntry acc (dedupKey sd) sd) m).map
          Prod.fst).Nodup ∧
      (∀ sd ∈ done ++ l, dedupKey sd ∈
        (l.foldl (fun acc sd => updateEntry acc (dedupKey sd) sd) m).map
          Prod.fst) ∧
      ∀ p ∈ l.foldl (fun acc sd => updateEntry acc (dedupKey sd) sd) m,
        p.2 ∈ done ++ l ∧ dedupKey p.2 = p.1 ∧
        ∀ sd ∈ done ++ l, dedupKey sd = p.1 →
          sd.attributes.pp ≤ p.2.attributes.pp := by
  intro l
  induction l with
  | nil =>
    intro done m hnd hcov hinv
    simp only [List.foldl_nil, List.append_nil]
    exact ⟨hnd, hcov, hinv⟩
  | cons a l ih =>
    intro done m hnd hcov hinv
    have hstep := ih (done ++ [a]) (updateEntry m (dedupKey a) a)
      (nodup_keys_updateEntry hnd) ?_ ?_
    · have hre : done ++ a :: l = (done ++ [a]) ++ l := by simp
      rw [List.foldl_cons, hre]
      exact hstep
    · intro sd hsd
      rw [keys_updateEntry]
      by_cases hmem : dedupKey a ∈ m.map Prod.fst
      · rw [if_pos hmem]
        rcases List.mem_append.mp hsd with hsd | hsd
        · exact hcov sd hsd
        · rw [List.mem_singleton.mp hsd]
          exact hmem
      · rw [if_neg hmem]
        rcases List.mem_append.mp hsd with hsd | hsd
        · exact List.mem_append_left _ (hcov sd hsd)
        · rw [List.mem_singleton.mp hsd]
          exact List.mem_append_right _ (List.mem_singleton_self _)
    · intro p hp
      by_cases hp1 : p.1 = dedupKey a
      · obtain ⟨hle, hor, hall⟩ := mem_updateEntry_eq hnd hp hp1
        refine ⟨?_, ?_, ?_⟩
        · rcases hor with hor | hor
          · rw [hor]
            exact List.mem_append_right _ (List.mem_singleton_self _)
          · exact List.mem_append_left _ (hinv _ hor).1
        · rcases hor with hor | hor
          · rw [hor, ← hp1]
          · rw [(hinv _ hor).2.1, hp1]
        · intro sd hsd hkey
          rcases List.mem_append.mp hsd with hsd | hsd
          · have hkm := hcov sd hsd
            obtain ⟨q, hq, hq1⟩ := List.mem_map.mp hkm
            have h5 : q.1 = dedupKey a := by rw [hq1, hkey, hp1]
            have hq' : (dedupKey a, q.2) ∈ m := by
              rw [← h5, Prod.mk.eta]
              exact hq
            have h1 := (hinv _ hq').2.2 sd hsd (by rw [hkey, hp1])
            exact le_trans h1 (hall q.2 hq')
          · rw [List.mem_singleton.mp hsd]
            exact hle
      · have hpm := mem_updateEntry_ne hp hp1
        obtain ⟨hd, hk, hb⟩ := hinv p hpm
        refine ⟨List.mem_append_left _ hd, hk, ?_⟩
        intro sd hsd hkey
        rcases List.mem_append.mp hsd with hsd | hsd
        · exact hb sd hsd hkey
        · rw [List.mem_singleton.mp hsd] at hkey
          exact absurd hkey.symm hp1

/-- **C1**: the Deduplicator's output has at most one entry per hash key
(all hash-less records share the sentinel key `"unknown"`, so at most one
hash-less entry survives); every retained entry comes from the input and
its performance value is ≥ that of every input entry sharing its hash
key. -/
theorem dedup_at_most_one_best_per_hash (l : List ScoreData) :
    ((dedupValues l).map dedupKey).Nodup ∧
    ∀ a ∈ dedupValues l, a ∈ l ∧
      ∀ sd ∈ l, dedupKey sd = dedupKey a →
        sd.attributes.pp ≤ a.attributes.pp := by
  have h := remove_duplicates_aux l [] [] (by simp) (by simp) (by simp)
  rw [List.nil_append] at h
  obtain ⟨hnd, -, hinv⟩ := h
  constructor
  · have hmap : (dedupValues l).map dedupKey =
        (remove_duplicates l).map Prod.fst := by
      rw [dedupValues, List.map_map]
      exact List.map_congr_left (fun p hp => (hinv p hp).2.1)
    rw [hmap]
    exact hnd
  · intro a ha
    obtain ⟨p, hp, hpa⟩ := List.mem_map.mp ha
    obtain ⟨hmem, hkey, hbound⟩ := hinv p hp
    rw [← hpa]
    exact ⟨hmem, fun sd hsd hk => hbound sd hsd (by rw [hk, hkey])⟩

/-- Concrete witness entries used below. -/
def testReplay (h : Option String) (fc : Bool) (mods : Nat) : Replay :=
  ⟨h, 0, 0, 0, 0, 0, mods, fc⟩

/-- Concrete witness beatmap. -/
def testMap (h : Option String) (st : RankedStatus) (t : String) :
    ListingBeatmap :=
  ⟨h, st, some "folder", some "file", some "artist", some t, some "diff"⟩

/-- Concrete witness scored entry. -/
def testSD (h : Option String) (p s : ℚ) (fc : Bool) : ScoreData :=
  ⟨testReplay h fc 0, testMap h RankedStatus.PendingWipGraveyard "t", ⟨p, s⟩⟩

/-- Witness for C1 at a concrete input: two entries on hash `"k"` and one
hash-less entry. -/
theorem dedup_at_most_one_best_per_hash_witness :
    (((dedupValues [testSD (some "k") 5 1 false, testSD (some "k") 7 1 false,
        testSD none 3 1 false]).map dedupKey).Nodup ∧
    ∀ a ∈ dedupValues [testSD (some "k") 5 1 false,
        testSD (some "k") 7 1 false, testSD none 3 1 false],
      a ∈ [testSD (some "k") 5 1 false, testSD (some "k") 7 1 false,
        testSD none 3 1 false] ∧
      ∀ sd ∈ [testSD (some "k") 5 1 false, testSD (some "k") 7 1 false,
        testSD none 3 1 false], dedupKey sd = dedupKey a →
        sd.attributes.pp ≤ a.attributes.pp) :=
  dedup_at_most_one_best_per_hash _

theorem lookup_updateEntry (m : List (String × ScoreData)) (key : String)
    (sd : ScoreData) :
    List.lookup key (updateEntry m key sd) =
      match List.lookup key m with
      | none => some sd
      | some e => some (if sd.attributes.pp > e.attributes.pp then sd
          else e) := by
  induction m with
  | nil => simp [updateEntry, List.lookup]
  | cons q rest ih =>
    obtain ⟨k, e⟩ := q
    by_cases hk : k = key
    · subst hk
      simp [updateEntry, List.lookup]
    · have hbeq : (key == k) = false := by
        simp [Ne.symm hk]
      simp only [updateEntry, if_neg hk, List.lookup, hbeq]
      exact ih

theorem remove_duplicates_append_singleton (l : List ScoreData)
    (sd : ScoreData) :
    remove_duplicates (l ++ [sd]) =
      updateEntry (remove_duplicates l) (dedupKey sd) sd := by
  simp [remove_duplicates, List.foldl_append]

/-- **C9**: in the Deduplicator a later entry replaces the current best
for its hash key only when its performance value is strictly greater; on
an exact tie the earlier entry is retained — in particular two same-key
entries with equal values deduplicate to the first one. -/
theorem dedup_tie_keeps_first :
    (∀ (l : List ScoreData) (sd : ScoreData),
      List.lookup (dedupKey sd) (remove_duplicates (l ++ [sd])) =
        match List.lookup (dedupKey sd) (remove_duplicates l) with
        | none => some sd
        | some e => some (if sd.attributes.pp > e.attributes.pp then sd
            else e)) ∧
    ∀ a b : ScoreData, dedupKey a = dedupKey b →
      a.attributes.pp = b.attributes.pp → dedupValues [a, b] = [a] := by
  constructor
  · intro l sd
    rw [remove_duplicates_append_singleton]
    exact lookup_updateEntry _ _ _
  · intro a b hkey hpp
    simp [dedupValues, remove_duplicates, updateEntry, ← hkey, hpp]

/-- Witness for C9 at concrete entries: two scores on hash `"k"` with
equal performance value 5 but different star ratings deduplicate to the
first. -/
theorem dedup_tie_keeps_first_witness :
    dedupValues [testSD (some "k") 5 1 false, testSD (some "k") 5 2 false]
      = [testSD (some "k") 5 1 false] :=
  dedup_tie_keeps_first.2 _ _ rfl rfl

/-! ### Sorting lemmas -/

theorem insertScore_perm (a : ScoreData) (l : List ScoreData) :
    (insertScore a l).Perm (a :: l) := by
  induction l with
  | nil => simp [insertScore]
  | cons b t ih =>
    by_cases h : b.attributes.pp ≤ a.attributes.pp
    · simp [insertScore, h]
    · simp only [insertScore, if_neg h]
      exact (ih.cons b).trans (List.Perm.swap a b t)

theorem sortScores_perm (l : List ScoreData) : (sortScores l).Perm l := by
  induction l with
  | nil => rfl
  | cons a t ih =>
    exact (insertScore_perm a (sortScores t)).trans (ih.cons a)

theorem insertScore_sorted {a : ScoreData} {l : List ScoreData}
    (hl : l.Pairwise (fun x y => y.attributes.pp ≤ x.attributes.pp)) :
    (insertScore a l).Pairwise
      (fun x y => y.attributes.pp ≤ x.attributes.pp) := by
  induction l with
  | nil => simp [insertScore]
  | cons b t ih =>
    obtain ⟨hb, ht⟩ := List.pairwise_cons.mp hl
    by_cases h : b.attributes.pp ≤ a.attributes.pp
    · simp only [insertScore, if_pos h]
      refine List.pairwise_cons.mpr ⟨?_, hl⟩
      intro x hx
      rcases List.mem_cons.mp hx with rfl | hx
      · exact h
      · exact le_trans (hb x hx) h
    · simp only [insertScore, if_neg h]
      refine List.pairwise_cons.mpr ⟨?_, ih ht⟩
      intro x hx
      rcases List.mem_cons.mp ((insertScore_perm a t).mem_iff.mp hx)
        with rfl | hx'
      · exact le_of_lt (lt_of_not_le h)
      · exact hb x hx'

theorem sortScores_sorted (l : List ScoreData) :
    (sortScores l).Pairwise
      (fun x y => y.attributes.pp ≤ x.attributes.pp) := by
  induction l with
  | nil => simp [sortScores]
  | cons a t ih => exact insertScore_sorted ih

/-! ### Weighted-total lemmas -/

/-- The performance values of a list of entries, in order. -/
def ppList (l : List ScoreData) : List ℚ :=
  l.map (fun sd => sd.attributes.pp)

/-- Horner form of the weighted total over a value list. -/
def weight : List ℚ → ℚ
  | [] => 0
  | x :: xs => x + (0.95 : ℚ) * weight xs

theorem enumFrom_weight (l : List ScoreData) :
    ∀ n : Nat, ((List.enumFrom n l).map
      (fun p => p.2.attributes.pp * (0.95 : ℚ) ^ p.1)).sum
      = (0.95 : ℚ) ^ n * weight (ppList l) := by
  induction l with
  | nil => intro n; simp [weight, ppList]
  | cons x xs ih =>
    intro n
    simp only [List.enumFrom, List.map_cons, List.sum_cons, ih (n + 1),
      ppList, weight]
    ring

theorem total_pp_eq_weight (l : List ScoreData) :
    total_pp l = weight (ppList l) := by
  have h := enumFrom_weight l 0
  rw [pow_zero, one_mul] at h
  rw [total_pp, List.enum, h]

theorem weight_eq_sum (q : List ℚ) :
    weight q = ∑ i ∈ Finset.range q.length,
      q.getD i 0 * (0.95 : ℚ) ^ i := by
  induction q with
  | nil => simp [weight]
  | cons x xs ih =>
    rw [weight, ih, List.length_cons, Finset.sum_range_succ',
      Finset.mul_sum]
    simp only [List.getD_cons_succ, List.getD_cons_zero, pow_zero,
      pow_succ, mul_one]
    rw [add_comm]
    congr 1
    exact Finset.sum_congr rfl (fun i _ => by ring)

/-- **C2**: the weighted total is Σ over 0-based post-sort rank `i` of
`value(i) * 0.95^i`; three entries with values 300, 200, 100 (input in
any order; here ascending to exercise the sort) give 580.25. -/
theorem weighted_total_spec :
    (∀ l : List ScoreData, total_pp (sortScores l) =
      ∑ i ∈ Finset.range (sortScores l).length,
        (ppList (sortScores l)).getD i 0 * (0.95 : ℚ) ^ i) ∧
    ∀ a b c : ScoreData, a.attributes.pp = 300 → b.attributes.pp = 200 →
      c.attributes.pp = 100 →
      (export_tops [c, b, a]).weighted_total = 580.25 := by
  constructor
  · intro l
    rw [total_pp_eq_weight, weight_eq_sum, ppList, List.length_map]
  · intro a b c h1 h2 h3
    have hs : sortScores [c, b, a] = [a, b, c] := by
      norm_num [sortScores, insertScore, h1, h2, h3]
    show total_pp (sortScores [c, b, a]) = 580.25
    rw [hs, total_pp_eq_weight]
    norm_num [weight, ppList, h1, h2, h3]

/-- Witness for C2 at concrete entries with values 300/200/100. -/
theorem weighted_total_spec_witness :
    (export_tops [testSD (some "c") 100 1 false,
      testSD (some "b") 200 1 false,
      testSD (some "a") 300 1 false]).weighted_total = 580.25 :=
  weighted_total_spec.2 _ _ _ rfl rfl rfl

/-- **C3**: the bonus equals `(417 − 1/3) * (1 − 0.995^min(1000, N))`;
`N = 0` gives exactly 0, and every `N ≥ 1000` gives the `N = 1000`
bonus. -/
theorem bonus_spec :
    (∀ n : Nat, bonus_pp n =
      (417 - 1 / 3) * (1 - (0.995 : ℚ) ^ (min 1000 n))) ∧
    bonus_pp 0 = 0 ∧
    ∀ n : Nat, 1000 ≤ n → bonus_pp n = bonus_pp 1000 := by
  refine ⟨fun n => rfl, by norm_num [bonus_pp], fun n hn => ?_⟩
  rw [bonus_pp, bonus_pp, min_eq_left hn, min_self]

/-- Witness for C3: a play count of 1500 earns exactly the 1000-play
bonus. -/
theorem bonus_spec_witness : bonus_pp 1500 = bonus_pp 1000 :=
  bonus_spec.2.2 1500 (by norm_num)

/-- **C5**: the special statistic counts exactly the entries with star
rating in `[9, 10)` and a true full-combo flag; 9.0 with full combo
counts, 10.0 and 8.999 do not, and a false flag never counts. -/
theorem ninePFC_spec :
    (∀ l : List ScoreData, count9PFC l = l.countP
      (fun sd => decide (9 ≤ sd.attributes.stars ∧
        sd.attributes.stars < 10 ∧ sd.score.perfect_combo = true))) ∧
    (∀ sd : ScoreData, sd.attributes.stars = 9 →
      sd.score.perfect_combo = true → count9PFC [sd] = 1) ∧
    (∀ sd : ScoreData, sd.attributes.stars = 10 → count9PFC [sd] = 0) ∧
    (∀ sd : ScoreData, sd.attributes.stars = 8.999 → count9PFC [sd] = 0) ∧
    (∀ sd : ScoreData, sd.score.perfect_combo = false →
      count9PFC [sd] = 0) := by
  refine ⟨fun l => ?_, fun sd h1 h2 => ?_, fun sd h1 => ?_,
    fun sd h1 => ?_, fun sd h1 => ?_⟩
  · rw [count9PFC, ← List.countP_eq_length_filter]
    refine List.countP_congr (fun sd _ => ?_)
    cases hfc : sd.score.perfect_combo <;>
      by_cases h9 : (9 : ℚ) ≤ sd.attributes.stars <;>
      by_cases h10 : sd.attributes.stars < 10 <;>
      simp [isNinePFC, hfc, h9, h10]
  · norm_num [count9PFC, isNinePFC, h1, h2]
  · norm_num [count9PFC, isNinePFC, h1]
  · norm_num [count9PFC, isNinePFC, h1]
  · norm_num [count9PFC, isNinePFC, h1]

/-- Witness for C5 at the boundary star ratings. -/
theorem ninePFC_spec_witness :
    count9PFC [testSD (some "a") 1 9 true] = 1 ∧
    count9PFC [testSD (some "b") 1 10 true] = 0 ∧
    count9PFC [testSD (some "c") 1 8.999 true] = 0 ∧
    count9PFC [testSD (some "d") 1 9.5 false] = 0 :=
  ⟨ninePFC_spec.2.1 _ rfl rfl, ninePFC_spec.2.2.1 _ rfl,
   ninePFC_spec.2.2.2.1 _ rfl, ninePFC_spec.2.2.2.2 _ rfl⟩

/-- **C4**: once a record reaches evaluation, a performance value ≥ 2000
makes the Matcher drop it with no log line, and a value < 2000 emits the
entry; so exactly 2000 is excluded and 1999.99 is included. -/
theorem outlier_guard {M : Type} (env : Env M)
    (listing : List ListingBeatmap) (score : Replay)
    (beatmap : ListingBeatmap) (m : M)
    (hfind : listing.find? (fun b => b.hash == score.beatmap_hash)
      = some beatmap)
    (hstatus : beatmap.status ≠ RankedStatus.Ranked)
    (hread : env.readMap (songPath beatmap) = Except.ok m) :
    ((env.calcAttrs m score.mods score.max_combo score.count_miss
        score.count_300 score.count_100 score.count_50).pp ≥ 2000 →
      processScore env listing score = ([], none)) ∧
    ((env.calcAttrs m score.mods score.max_combo score.count_miss
        score.count_300 score.count_100 score.count_50).pp < 2000 →
      processScore env listing score = ([], some ⟨score, beatmap,
        env.calcAttrs m score.mods score.max_combo score.count_miss
          score.count_300 score.count_100 score.count_50⟩)) := by
  constructor
  · intro hpp
    simp [processScore, hfind, hstatus, evalRecord, hread, hpp]
  · intro hpp
    simp [processScore, hfind, hstatus, evalRecord, hread,
      not_le.mpr hpp]

/-- Oracle environment returning fixed attributes for every evaluation. -/
def constEnv (a : PerformanceAttributes) : Env Unit :=
  ⟨fun _ => Except.ok (), fun _ _ _ _ _ _ _ => a⟩

/-- Witness for C4: with an evaluator returning exactly 2000 the record
is dropped with no log; with 1999.99 it is emitted. -/
theorem outlier_guard_witness :
    processScore (constEnv ⟨2000, 5⟩)
      [testMap (some "k") RankedStatus.PendingWipGraveyard "t"]
      (testReplay (some "k") false 0) = ([], none) ∧
    processScore (constEnv ⟨1999.99, 5⟩)
      [testMap (some "k") RankedStatus.PendingWipGraveyard "t"]
      (testReplay (some "k") false 0) =
      ([], some ⟨testReplay (some "k") false 0,
        testMap (some "k") RankedStatus.PendingWipGraveyard "t",
        ⟨1999.99, 5⟩⟩) :=
  ⟨(outlier_guard (constEnv ⟨2000, 5⟩)
      [testMap (some "k") RankedStatus.PendingWipGraveyard "t"]
      (testReplay (some "k") false 0)
      (testMap (some "k") RankedStatus.PendingWipGraveyard "t") ()
      (by decide) (by decide) rfl).1 (by norm_num [constEnv]),
   (outlier_guard (constEnv ⟨1999.99, 5⟩)
      [testMap (some "k") RankedStatus.PendingWipGraveyard "t"]
      (testReplay (some "k") false 0)
      (testMap (some "k") RankedStatus.PendingWipGraveyard "t") ()
      (by decide) (by decide) rfl).2 (by norm_num [constEnv])⟩

/-- **C6**: when the lookup matches a beatmap, a "ranked" status makes
the Matcher skip the record (no entry, no error log); any other status
proceeds to evaluation. -/
theorem ranked_filter {M : Type} (env : Env M)
    (listing : List ListingBeatmap) (score : Replay)
    (beatmap : ListingBeatmap)
    (hfind : listing.find? (fun b => b.hash == score.beatmap_hash)
      = some beatmap) :
    (beatmap.status = RankedStatus.Ranked →
      processScore env listing score = ([], none)) ∧
    (beatmap.status ≠ RankedStatus.Ranked →
      processScore env listing score = evalRecord env beatmap score) := by
  constructor
  · intro h
    simp [processScore, hfind, h]
  · intro h
    simp [processScore, hfind, h]

/-- Witness for C6: a record matched to a ranked beatmap is skipped; the
same record matched to a graveyard beatmap reaches evaluation. -/
theorem ranked_filter_witness :
    processScore (constEnv ⟨100, 5⟩)
      [testMap (some "k") RankedStatus.Ranked "t"]
      (testReplay (some "k") false 0) = ([], none) ∧
    processScore (constEnv ⟨100, 5⟩)
      [testMap (some "k") RankedStatus.PendingWipGraveyard "t"]
      (testReplay (some "k") false 0) =
      evalRecord (constEnv ⟨100, 5⟩)
        (testMap (some "k") RankedStatus.PendingWipGraveyard "t")
        (testReplay (some "k") false 0) :=
  ⟨(ranked_filter (constEnv ⟨100, 5⟩)
      [testMap (some "k") RankedStatus.Ranked "t"]
      (testReplay (some "k") false 0)
      (testMap (some "k") RankedStatus.Ranked "t") (by decide)).1 rfl,
   (ranked_filter (constEnv ⟨100, 5⟩)
      [testMap (some "k") RankedStatus.PendingWipGraveyard "t"]
      (testReplay (some "k") false 0)
      (testMap (some "k") RankedStatus.PendingWipGraveyard "t")
      (by decide)).2 (by decide)⟩

/-- Counterexample to C8 as stated: a run whose two databases both load
fine but whose report file cannot be created (`File::create` at line 169
returns an `io::Error`, `?`-propagated through `export_tops` and `main`)
exits with an error, so a load failure is not the only fatal
condition. -/
theorem skip_and_continue_cex :
    ((⟨Except.ok ⟨[]⟩, Except.ok ⟨[]⟩, constEnv ⟨100, 5⟩,
        fun _ => Except.error "permission denied"⟩ :
          World Unit).scoresDB.isOk = true) ∧
    ((⟨Except.ok ⟨[]⟩, Except.ok ⟨[]⟩, constEnv ⟨100, 5⟩,
        fun _ => Except.error "permission denied"⟩ :
          World Unit).osuDB.isOk = true) ∧
    (runMain (⟨Except.ok ⟨[]⟩, Except.ok ⟨[]⟩, constEnv ⟨100, 5⟩,
        fun _ => Except.error "permission denied"⟩ :
          World Unit)).isOk = false :=
  ⟨rfl, rfl, rfl⟩

/-- **C8 (amended)**: a record whose beatmap lookup fails or whose
content file cannot be read contributes nothing — the group's output
equals the output without that record, so the rest is processed
unchanged; a failed database load makes the run's result an error; and
once both loads succeed the run's result is `ok` exactly when the
report-file write succeeds — in particular it never depends on how many
records were skipped. -/
theorem skip_and_continue :
    (∀ (M : Type) (env : Env M) (listing : List ListingBeatmap)
      (pre post : List Replay) (r : Replay),
      (listing.find? (fun b => b.hash == r.beatmap_hash) = none ∨
        ∃ b, listing.find? (fun b' => b'.hash == r.beatmap_hash) = some b ∧
          b.status ≠ RankedStatus.Ranked ∧
          ∃ e, env.readMap (songPath b) = Except.error e) →
      processGroup env listing (pre ++ r :: post) =
        processGroup env listing (pre ++ post)) ∧
    (∀ (M : Type) (w : World M),
      (runMain w).isOk = true →
        w.scoresDB.isOk = true ∧ w.osuDB.isOk = true) ∧
    ∀ (M : Type) (w : World M) (sl : ScoreList) (li : Listing),
      w.scoresDB = Except.ok sl → w.osuDB = Except.ok li →
      (runMain w).isOk =
        (w.writeReport (export_tops (dedupValues
          (process_scores w.env sl li)))).isOk := by
  refine ⟨?_, ?_, ?_⟩
  · intro M env listing pre post r hr
    have hr2 : (processScore env listing r).2 = none := by
      rcases hr with hnone | ⟨b, hfind, hstatus, e, herr⟩
      · simp [processScore, hnone]
      · simp [processScore, hfind, hstatus, evalRecord, herr]
    simp [processGroup, List.filterMap_append, List.filterMap_cons, hr2]
  · intro M w h
    obtain ⟨sdb, odb, env, wr⟩ := w
    cases sdb with
    | error e => simp [runMain, Except.isOk, Except.toBool] at h
    | ok sl =>
      cases odb with
      | error e => simp [runMain, Except.isOk, Except.toBool] at h
      | ok li => exact ⟨rfl, rfl⟩
  · intro M w sl li hsl hli
    obtain ⟨sdb, odb, env, wr⟩ := w
    simp only at hsl hli
    subst hsl
    subst hli
    cases hw : wr (export_tops (dedupValues (process_scores env sl li)))
      with
    | error e => simp [runMain, hw, Except.isOk, Except.toBool]
    | ok u => simp [runMain, hw, Except.isOk, Except.toBool]

/-- Witness for the amended C8: a record with no matching beatmap is
dropped from an otherwise empty group, and a run with both loads and the
report write succeeding has an `ok` result equal to the write outcome. -/
theorem skip_and_continue_witness :
    processGroup (constEnv ⟨100, 5⟩) []
      ([] ++ testReplay (some "x") false 0 :: []) =
      processGroup (constEnv ⟨100, 5⟩) [] ([] ++ []) ∧
    (runMain (⟨Except.ok ⟨[]⟩, Except.ok ⟨[]⟩, constEnv ⟨100, 5⟩,
        fun _ => Except.ok ()⟩ : World Unit)).isOk =
      ((⟨Except.ok ⟨[]⟩, Except.ok ⟨[]⟩, constEnv ⟨100, 5⟩,
        fun _ => Except.ok ()⟩ : World Unit).writeReport
          (export_tops (dedupValues (process_scores
            (⟨Except.ok ⟨[]⟩, Except.ok ⟨[]⟩, constEnv ⟨100, 5⟩,
              fun _ => Except.ok ()⟩ : World Unit).env ⟨[]⟩ ⟨[]⟩)))).isOk :=
  ⟨skip_and_continue.1 Unit (constEnv ⟨100, 5⟩) [] [] []
      (testReplay (some "x") false 0) (Or.inl rfl),
   skip_and_continue.2.2 Unit _ ⟨[]⟩ ⟨[]⟩ rfl rfl⟩

/-- **C10**: a modifier bitset with any bit outside the 31 defined flags
renders as "NoMod" even when non-empty (e.g. bit 31); a non-empty bitset
of defined flags renders as the list of those flag names. -/
theorem mod_display_spec :
    (∀ m : Nat, ¬ (m &&& definedModsMask = m) → mod_display m = "NoMod") ∧
    (∀ m : Nat, m &&& definedModsMask = m → m ≠ 0 →
      mod_display m = formatMods m) ∧
    mod_display (2 ^ 31) = "NoMod" ∧ (2 ^ 31 : Nat) ≠ 0 ∧
    mod_display (2 ^ 3) = "Hidden" := by
  refine ⟨fun m hm => ?_, fun m hm h0 => ?_, by decide, by norm_num,
    by decide⟩
  · simp [mod_display, modsFromBits, hm]
  · simp [mod_display, modsFromBits, hm, h0]

/-- Witness for C10: bit 31 plus Hidden renders "NoMod"; Hidden plus
HardRock (24) renders as the flag-name list. -/
theorem mod_display_spec_witness :
    mod_display (2 ^ 31 + 8) = "NoMod" ∧
    mod_display 24 = formatMods 24 :=
  ⟨mod_display_spec.1 _ (by decide),
   mod_display_spec.2.1 _ (by decide) (by decide)⟩

/-! ### Determinism of the report under the map's iteration order -/

/-- Environment for the determinism analysis: every content file reads
fine and every evaluation returns value 100, stars 5. -/
def cexEnv : Env Unit := constEnv ⟨100, 5⟩

/-- Listing with two graveyard beatmaps of hashes `"A"` and `"B"`. -/
def cexListing : Listing :=
  ⟨[testMap (some "A") RankedStatus.PendingWipGraveyard "TA",
    testMap (some "B") RankedStatus.PendingWipGraveyard "TB"]⟩

/-- One score on each of the two beatmaps. -/
def cexScores : ScoreList :=
  ⟨[⟨[testReplay (some "A") false 0]⟩, ⟨[testReplay (some "B") false 0]⟩]⟩

/-- Counterexample to C7 as stated: the two matched entries have equal
performance value 100 but are different entries; both orders of the
deduplicated value collection are permutations of it (the `HashMap`
iteration order is unspecified and the hash seed changes per run), yet
the stable sort preserves the incoming order of the tie, so the two runs
write differently ordered top-100 lists. -/
theorem pipeline_determinism_cex :
    ([⟨testReplay (some "A") false 0,
        testMap (some "A") RankedStatus.PendingWipGraveyard "TA",
        ⟨100, 5⟩⟩,
      ⟨testReplay (some "B") false 0,
        testMap (some "B") RankedStatus.PendingWipGraveyard "TB",
        ⟨100, 5⟩⟩] : List ScoreData).Perm
      (dedupValues (process_scores cexEnv cexScores cexListing)) ∧
    ([⟨testReplay (some "B") false 0,
        testMap (some "B") RankedStatus.PendingWipGraveyard "TB",
        ⟨100, 5⟩⟩,
      ⟨testReplay (some "A") false 0,
        testMap (some "A") RankedStatus.PendingWipGraveyard "TA",
        ⟨100, 5⟩⟩] : List ScoreData).Perm
      (dedupValues (process_scores cexEnv cexScores cexListing)) ∧
    (sortScores [⟨testReplay (some "A") false 0,
        testMap (some "A") RankedStatus.PendingWipGraveyard "TA",
        ⟨100, 5⟩⟩,
      ⟨testReplay (some "B") false 0,
        testMap (some "B") RankedStatus.PendingWipGraveyard "TB",
        ⟨100, 5⟩⟩]).take 100 ≠
    (sortScores [⟨testReplay (some "B") false 0,
        testMap (some "B") RankedStatus.PendingWipGraveyard "TB",
        ⟨100, 5⟩⟩,
      ⟨testReplay (some "A") false 0,
        testMap (some "A") RankedStatus.PendingWipGraveyard "TA",
        ⟨100, 5⟩⟩]).take 100 := by
  refine ⟨?_, ?_, ?_⟩ <;> decide

/-- **C7 (amended)**: for any two iteration orders of the deduplicated
collection, the two runs agree on the weighted total, the bonus total,
the 9*-PFC count, and the sequence of performance values of the sorted
list and of its top-100 slice; the full ordered top-100 entry list itself
is guaranteed identical whenever the deduplicated performance values are
pairwise distinct (a tie may be ordered differently by the stable sort,
see the counterexample). -/
theorem pipeline_determinism_amended (input l₁ l₂ : List ScoreData)
    (h1 : l₁.Perm (dedupValues input))
    (h2 : l₂.Perm (dedupValues input)) :
    ppList (sortScores l₁) = ppList (sortScores l₂) ∧
    total_pp (sortScores l₁) = total_pp (sortScores l₂) ∧
    bonus_pp (sortScores l₁).length = bonus_pp (sortScores l₂).length ∧
    count9PFC (sortScores l₁) = count9PFC (sortScores l₂) ∧
    ppList ((sortScores l₁).take 100) =
      ppList ((sortScores l₂).take 100) ∧
    ((ppList (dedupValues input)).Nodup →
      sortScores l₁ = sortScores l₂) := by
  have hperm : (sortScores l₁).Perm (sortScores l₂) :=
    ((sortScores_perm l₁).trans h1).trans
      (((sortScores_perm l₂).trans h2).symm)
  have hmap' : (sortScores l₁).map (fun sd => sd.attributes.pp) =
      (sortScores l₂).map (fun sd => sd.attributes.pp) := by
    haveI : IsAntisymm ℚ (fun a b : ℚ => b ≤ a) :=
      ⟨fun a b hab hba => le_antisymm hba hab⟩
    refine List.eq_of_perm_of_sorted (r := fun a b : ℚ => b ≤ a)
      (hperm.map (fun sd => sd.attributes.pp)) ?_ ?_
    · exact (List.pairwise_map).mpr (sortScores_sorted l₁)
    · exact (List.pairwise_map).mpr (sortScores_sorted l₂)
  have hmap : ppList (sortScores l₁) = ppList (sortScores l₂) := hmap'
  refine ⟨hmap, ?_, ?_, ?_, ?_, ?_⟩
  · rw [total_pp_eq_weight, total_pp_eq_weight, hmap]
  · rw [hperm.length_eq]
  · rw [count9PFC, count9PFC, (hperm.filter isNinePFC).length_eq]
  · rw [ppList, ppList, List.map_take, List.map_take, hmap']
  · intro hnd
    have hnd' : ((dedupValues input).map
        (fun sd => sd.attributes.pp)).Nodup := hnd
    have hnd₁ : ((sortScores l₁).map
        (fun sd => sd.attributes.pp)).Nodup :=
      ((((sortScores_perm l₁).trans h1).map
        (fun sd => sd.attributes.pp)).nodup_iff).mpr hnd'
    have hnd₂ : ((sortScores l₂).map
        (fun sd => sd.attributes.pp)).Nodup :=
      ((((sortScores_perm l₂).trans h2).map
        (fun sd => sd.attributes.pp)).nodup_iff).mpr hnd'
    have hstrict : ∀ l : List ScoreData,
        (l.map (fun sd => sd.attributes.pp)).Nodup →
        l.Pairwise (fun x y => y.attributes.pp ≤ x.attributes.pp) →
        l.Pairwise (fun x y => y.attributes.pp < x.attributes.pp) := by
      intro l hl hs
      have hne : l.Pairwise
          (fun x y => x.attributes.pp ≠ y.attributes.pp) :=
        (List.pairwise_map).mp hl
      exact (hs.and hne).imp
        (fun h => lt_of_le_of_ne h.1 (Ne.symm h.2))
    haveI : IsAntisymm ScoreData
        (fun x y => y.attributes.pp < x.attributes.pp) :=
      ⟨fun a b ha hb => absurd (ha.trans hb) (lt_irrefl _)⟩
    exact List.eq_of_perm_of_sorted
      (r := fun x y : ScoreData => y.attributes.pp < x.attributes.pp)
      hperm (hstrict _ hnd₁ (sortScores_sorted l₁))
      (hstrict _ hnd₂ (sortScores_sorted l₂))

/-- Witness for the amended C7 at the concrete two-entry pipeline with a
tie: the totals and value sequences agree for both iteration orders. -/
theorem pipeline_determinism_amended_witness :
    ppList (sortScores [⟨testReplay (some "A") false 0,
        testMap (some "A") RankedStatus.PendingWipGraveyard "TA",
        ⟨100, 5⟩⟩,
      ⟨testReplay (some "B") false 0,
        testMap (some "B") RankedStatus.PendingWipGraveyard "TB",
        ⟨100, 5⟩⟩]) =
      ppList (sortScores [⟨testReplay (some "B") false 0,
        testMap (some "B") RankedStatus.PendingWipGraveyard "TB",
        ⟨100, 5⟩⟩,
      ⟨testReplay (some "A") false 0,
        testMap (some "A") RankedStatus.PendingWipGraveyard "TA",
        ⟨100, 5⟩⟩]) ∧
    total_pp (sortScores [⟨testReplay (some "A") false 0,
        testMap (some "A") RankedStatus.PendingWipGraveyard "TA",
        ⟨100, 5⟩⟩,
      ⟨testReplay (some "B") false 0,
        testMap (some "B") RankedStatus.PendingWipGraveyard "TB",
        ⟨100, 5⟩⟩]) =
      total_pp (sortScores [⟨testReplay (some "B") false 0,
        testMap (some "B") RankedStatus.PendingWipGraveyard "TB",
        ⟨100, 5⟩⟩,
      ⟨testReplay (some "A") false 0,
        testMap (some "A") RankedStatus.PendingWipGraveyard "TA",
        ⟨100, 5⟩⟩]) :=
  have h := pipeline_determinism_amended
    (process_scores cexEnv cexScores cexListing)
    [⟨testReplay (some "A") false 0,
        testMap (some "A") RankedStatus.PendingWipGraveyard "TA",
        ⟨100, 5⟩⟩,
      ⟨testReplay (some "B") false 0,
        testMap (some "B") RankedStatus.PendingWipGraveyard "TB",
        ⟨100, 5⟩⟩]
    [⟨testReplay (some "B") false 0,
        testMap (some "B") RankedStatus.PendingWipGraveyard "TB",
        ⟨100, 5⟩⟩,
      ⟨testReplay (some "A") false 0,
        testMap (some "A") RankedStatus.PendingWipGraveyard "TA",
        ⟨100, 5⟩⟩]
    (by decide) (by decide)
  ⟨h.1, h.2.1⟩
